import Mathlib

/-!
Shallow embedding of `resize_flac_cover.py` (AACR — Automatic album cover
resizer): a single image transform (`resize_image`, backed by the external
PIL collaborator) plus five per-container-format metadata adapters
(`process_flac`, `process_mp3`, `process_m4a`, `process_ogg`, `process_wav`,
backed by the external mutagen collaborator), an extension dispatcher
(`process_file`) and a batch driver (`process_files`).

External collaborators (PIL, mutagen, `base64`, `pathlib`, `os.walk`) are not
part of the repository; they are modelled here at the granularity the script
observes them: PIL images as mode/size/abstract-content records, mutagen tag
containers as their picture lists, base64 and the FLAC picture-block wire
format executably and exactly.  Python exceptions are modelled as `Except`
values; a `try/except` boundary converts them into the script's explicit
`None`/`False` results.  Byte strings are `List Nat` with entries below 256
wherever the model constructs them.
-/

/-- Byte buffers (Python `bytes`) as lists of naturals. -/
abbrev Bytes := List Nat

/-- PIL color modes the script's pipeline distinguishes: `img.mode` is compared
against `'RGBA'` and `'LA'`; other decoded images pass through unchanged. -/
inductive ImgMode
  | RGB
  | RGBA
  | LA
  | L
deriving DecidableEq

/-- A decoded PIL image: color mode, pixel dimensions, and an abstract pixel
payload (the script never inspects individual pixels). -/
structure PILImage where
  mode : ImgMode
  width : Nat
  height : Nat
  content : Nat
deriving DecidableEq

/-- Whether a PIL mode carries an alpha channel. -/
def modeHasAlpha : ImgMode → Bool
  | .RGBA => true
  | .LA => true
  | _ => false

/-- Numeric tag for a mode, used in the modelled JPEG byte stream. -/
def modeCode : ImgMode → Nat
  | .RGB => 0
  | .RGBA => 1
  | .LA => 2
  | .L => 3

/-- `img.convert('RGB')`: flatten any alpha channel into an opaque RGB image. -/
def convertRGB (img : PILImage) : PILImage :=
  { img with mode := ImgMode.RGB }

/-- `img.resize((w, h), Image.Resampling.LANCZOS)`: the resulting image has
exactly the requested dimensions. -/
def imgResize (img : PILImage) (w h : Nat) : PILImage :=
  { img with width := w, height := h }

/-- Modelled JPEG encoding: SOI marker, 16-bit big-endian dimensions, quality,
mode tag and the abstract payload, all as bytes below 256.  The buffer is
never empty (it starts with the marker). -/
def jpegEncode (img : PILImage) (quality : Nat) : Bytes :=
  [255, 216, img.width / 256 % 256, img.width % 256,
   img.height / 256 % 256, img.height % 256,
   quality % 256, modeCode img.mode, img.content % 256]

/-- `img.save(buf, format='JPEG', quality=q)`: JPEG has no alpha channel, so
PIL raises on images whose mode still carries alpha; otherwise it writes the
encoded buffer. -/
def saveJPEG (img : PILImage) (quality : Nat) : Except String Bytes :=
  if modeHasAlpha img.mode then Except.error "cannot write alpha mode as JPEG"
  else Except.ok (jpegEncode img quality)

/-- The external image decoder `Image.open(io.BytesIO(data))`: per the spec's
collaborator contract it either decodes a byte buffer into an image or reports
a decode error.  The embedding is parameterised over it. -/
abbrev Decoder := Bytes → Except String PILImage

/-- The body of `resize_image`'s `try` block: decode, flatten RGBA/LA to RGB,
force-resize to 500x500 with LANCZOS, encode as JPEG quality 95.  A raised
exception at any step is an `Except.error`. -/
def resizePipeline (decode : Decoder) (img_data : Bytes) : Except String Bytes := do
  let img ← decode img_data
  let img := if img.mode = ImgMode.RGBA ∨ img.mode = ImgMode.LA then convertRGB img else img
  let img := imgResize img 500 500
  saveJPEG img 95

/-- `resize_image(img_data)`: the `try/except` boundary converts any raised
exception into `None`; on success the JPEG bytes are returned. -/
def resize_image (decode : Decoder) (img_data : Bytes) : Option Bytes :=
  match resizePipeline decode img_data with
  | Except.ok b => some b
  | Except.error _ => none

/-- A mutagen FLAC/Vorbis picture block (`mutagen.flac.Picture`): type code,
MIME and description stored as byte strings, declared dimensions, raw data. -/
structure Picture where
  type : Nat
  mime : Bytes
  desc : Bytes
  width : Nat
  height : Nat
  depth : Nat
  colors : Nat
  data : Bytes
deriving DecidableEq

/-- A mutagen ID3 attached-picture frame (`mutagen.id3.APIC`). -/
structure APIC where
  encoding : Nat
  mime : String
  type : Nat
  desc : String
  data : Bytes
deriving DecidableEq

/-- The metadata of one audio file as the script observes it through mutagen:
one constructor per container format, plus `raw` for content the format's
parser rejects (parsing it raises, which the adapter catches). -/
inductive AudioContent
  | flac (pictures : List Picture)
  | mp3 (apics : List APIC)
  | m4a (covr : Option (List (Bytes × Nat)))
  | ogg (mbp : Option (List Bytes))
  | wav (tags : Option (List APIC))
  | raw
deriving DecidableEq

/-- One iteration of `process_flac`'s loop body for one picture: a type-3
picture whose data transforms successfully is mutated in place (new data, new
declared 500x500 dimensions); anything else is left alone.  The flag records
whether this picture set `modified`. -/
def updateFlacPic (decode : Decoder) (p : Picture) : Picture × Bool :=
  if p.type = 3 then
    match resize_image decode p.data with
    | some resized => ({ p with data := resized, width := 500, height := 500 }, true)
    | none => (p, false)
  else (p, false)

/-- `process_flac`: iterate over all picture blocks, mutating every front-cover
(type 3) block whose data transforms; save (persist the mutated picture list)
only when at least one block was modified.  Returns the function's boolean
result and the on-disk content after the call. -/
def process_flac (decode : Decoder) (c : AudioContent) : Bool × AudioContent :=
  match c with
  | AudioContent.flac pics =>
    let stepped := pics.map (updateFlacPic decode)
    let modified := stepped.any (fun s => s.2)
    if modified then (true, AudioContent.flac (stepped.map (fun s => s.1)))
    else (false, c)
  | _ => (false, c)

/-- The single APIC frame `process_mp3`/`process_wav` insert on success. -/
def newCoverAPIC (resized : Bytes) : APIC :=
  { encoding := 3, mime := "image/jpeg", type := 3, desc := "Cover", data := resized }

/-- The `for apic in ...getall('APIC')` loop shared by `process_mp3` and
`process_wav`: try each frame's bytes in order; the first successful transform
ends the loop (`break`), a failed transform falls through to the next frame. -/
def apicLoop (decode : Decoder) : List APIC → Option Bytes
  | [] => none
  | apic :: rest =>
    match resize_image decode apic.data with
    | some resized => some resized
    | none => apicLoop decode rest

/-- `process_mp3`: on the loop's first successful transform, all APIC frames
are removed (`delall`) and the one new cover frame added; the tag is saved
only in that case. -/
def process_mp3 (decode : Decoder) (c : AudioContent) : Bool × AudioContent :=
  match c with
  | AudioContent.mp3 apics =>
    match apicLoop decode apics with
    | some resized => (true, AudioContent.mp3 [newCoverAPIC resized])
    | none => (false, c)
  | _ => (false, c)

/-- `process_wav`: same APIC policy as MP3; a file without an ID3 tag chunk
gets an empty in-memory tag (`add_tags`), which holds zero APIC frames, so
nothing is modified and nothing is saved. -/
def process_wav (decode : Decoder) (c : AudioContent) : Bool × AudioContent :=
  match c with
  | AudioContent.wav tags =>
    let tagList := match tags with
      | some l => l
      | none => []
    match apicLoop decode tagList with
    | some resized => (true, AudioContent.wav (some [newCoverAPIC resized]))
    | none => (false, c)
  | _ => (false, c)

/-- `MP4Cover.FORMAT_JPEG`. -/
def FORMAT_JPEG : Nat := 13

/-- `process_m4a`: if a `covr` atom is present, transform its first entry's
bytes and on success replace the whole list with one JPEG-tagged cover.
Indexing an empty `covr` list raises, which the adapter catches. -/
def process_m4a (decode : Decoder) (c : AudioContent) : Bool × AudioContent :=
  match c with
  | AudioContent.m4a covr =>
    match covr with
    | some (cover :: _) =>
      match resize_image decode cover.1 with
      | some resized => (true, AudioContent.m4a (some [(resized, FORMAT_JPEG)]))
      | none => (false, c)
    | some [] => (false, c)
    | none => (false, c)
  | _ => (false, c)

/-- Base64 alphabet: sextet index to ASCII code (`A-Z`, `a-z`, `0-9`, `+`, `/`). -/
def b64char (s : Nat) : Nat :=
  if s < 26 then 65 + s
  else if s < 52 then 97 + (s - 26)
  else if s < 62 then 48 + (s - 52)
  else if s = 62 then 43
  else 47

/-- Base64 alphabet inverse: ASCII code to sextet, `none` on a non-alphabet
character (`=` included). -/
def b64sextet (ch : Nat) : Option Nat :=
  if 65 ≤ ch ∧ ch ≤ 90 then some (ch - 65)
  else if 97 ≤ ch ∧ ch ≤ 122 then some (26 + (ch - 97))
  else if 48 ≤ ch ∧ ch ≤ 57 then some (52 + (ch - 48))
  else if ch = 43 then some 62
  else if ch = 47 then some 63
  else none

/-- `base64.b64encode`: three bytes to four alphabet characters, the final
partial group padded with `=` (ASCII 61). -/
def b64encode : List Nat → List Nat
  | [] => []
  | [a] => [b64char (a / 4), b64char (a % 4 * 16), 61, 61]
  | [a, b] => [b64char (a / 4), b64char (a % 4 * 16 + b / 16), b64char (b % 16 * 4), 61]
  | a :: b :: c :: rest =>
    b64char (a / 4) :: b64char (a % 4 * 16 + b / 16) ::
    b64char (b % 16 * 4 + c / 64) :: b64char (c % 64) :: b64encode rest

/-- `base64.b64decode`: groups of four characters back to bytes, accepting `=`
padding only at the end; anything else raises (`Except.error`). -/
def b64decode : List Nat → Except String Bytes
  | [] => Except.ok []
  | c0 :: c1 :: c2 :: c3 :: rest =>
    match b64sextet c0, b64sextet c1 with
    | some s0, some s1 =>
      if c2 = 61 ∧ c3 = 61 ∧ rest = [] then Except.ok [s0 * 4 + s1 / 16]
      else
        match b64sextet c2 with
        | some s2 =>
          if c3 = 61 ∧ rest = [] then Except.ok [s0 * 4 + s1 / 16, s1 % 16 * 16 + s2 / 4]
          else
            match b64sextet c3, b64decode rest with
            | some s3, Except.ok tail =>
              Except.ok ((s0 * 4 + s1 / 16) :: (s1 % 16 * 16 + s2 / 4) :: (s2 % 4 * 64 + s3) :: tail)
            | _, _ => Except.error "Invalid base64-encoded string"
        | none => Except.error "Invalid base64-encoded string"
    | _, _ => Except.error "Invalid base64-encoded string"
  | _ => Except.error "Invalid base64-encoded string"

/-- A 32-bit big-endian unsigned integer as four bytes (`struct.pack('>I')`). -/
def be32 (n : Nat) : List Nat :=
  [n / 16777216 % 256, n / 65536 % 256, n / 256 % 256, n % 256]

/-- Read a 32-bit big-endian unsigned integer (`struct.unpack('>I', f.read(4))`,
which raises when fewer than four bytes remain). -/
def readBE32 : List Nat → Except String (Nat × List Nat)
  | a :: b :: c :: d :: rest => Except.ok (((a * 256 + b) * 256 + c) * 256 + d, rest)
  | _ => Except.error "unpack requires a buffer of 4 bytes"

/-- Read up to `n` raw bytes (`f.read(n)`, which returns short without error). -/
def readBytes (n : Nat) (l : List Nat) : Bytes × List Nat :=
  (l.take n, l.drop n)

/-- `mutagen.flac.Picture.write()`: the FLAC METADATA_BLOCK_PICTURE wire
format — type, length-prefixed MIME and description, dimensions, colour info,
length-prefixed data, every integer 32-bit big-endian. -/
def pictureWrite (p : Picture) : Bytes :=
  be32 p.type ++ be32 p.mime.length ++ p.mime ++ be32 p.desc.length ++ p.desc ++
  be32 p.width ++ be32 p.height ++ be32 p.depth ++ be32 p.colors ++
  be32 p.data.length ++ p.data

/-- `mutagen.flac.Picture(data)`: parse the wire format back into a picture
block; a short integer field raises. -/
def pictureParse (l : Bytes) : Except String Picture := do
  let (t, l) ← readBE32 l
  let (mlen, l) ← readBE32 l
  let (mime, l) := readBytes mlen l
  let (dlen, l) ← readBE32 l
  let (desc, l) := readBytes dlen l
  let (w, l) ← readBE32 l
  let (h, l) ← readBE32 l
  let (dep, l) ← readBE32 l
  let (col, l) ← readBE32 l
  let (dtlen, l) ← readBE32 l
  let (data, _) := readBytes dtlen l
  Except.ok ⟨t, mime, desc, w, h, dep, col, data⟩

/-- ASCII bytes of `'image/jpeg'`. -/
def mimeJpegBytes : Bytes := [105, 109, 97, 103, 101, 47, 106, 112, 101, 103]

/-- The brand-new picture block `process_ogg` builds on success: `Picture()`
defaults (zero dimensions/depth/colors, empty description) with only type,
MIME and data assigned. -/
def mkNewOggPic (resized : Bytes) : Picture :=
  { type := 3, mime := mimeJpegBytes, desc := [], width := 0, height := 0,
    depth := 0, colors := 0, data := resized }

/-- `process_ogg`: if the `metadata_block_picture` comment field exists,
base64-decode its first value into a picture block, transform that block's
data, and on success overwrite the field with the base64 encoding of the
brand-new block; any decode/parse/index exception is caught (not modified,
not saved). -/
def process_ogg (decode : Decoder) (c : AudioContent) : Bool × AudioContent :=
  match c with
  | AudioContent.ogg mbp =>
    match mbp with
    | some (v :: _) =>
      match b64decode v with
      | Except.ok blockBytes =>
        match pictureParse blockBytes with
        | Except.ok pic =>
          match resize_image decode pic.data with
          | some resized =>
            (true, AudioContent.ogg (some [b64encode (pictureWrite (mkNewOggPic resized))]))
          | none => (false, c)
        | Except.error _ => (false, c)
      | Except.error _ => (false, c)
    | some [] => (false, c)
    | none => (false, c)
  | _ => (false, c)

/-- `SUPPORTED_FORMATS`. -/
def SUPPORTED_FORMATS : List String := [".flac", ".mp3", ".m4a", ".ogg", ".wav"]

/-- Python `str.lower()` restricted to the ASCII range the extension table
uses. -/
def lowerStr (s : String) : String :=
  ⟨s.data.map Char.toLower⟩

/-- Python `str.split('/')` on a character list, keeping empty components. -/
def splitSlash : List Char → List (List Char)
  | [] => [[]]
  | ch :: rest =>
    let r := splitSlash rest
    if ch = '/' then [] :: r
    else match r with
      | [] => [[ch]]
      | g :: gs => (ch :: g) :: gs

/-- `pathlib.PurePath.name`: the final path component (empty and `.`
components dropped). -/
def pyName (path : String) : String :=
  match ((splitSlash path.data).filter
      (fun g => decide (g ≠ [] ∧ g ≠ ['.']))).getLast? with
  | some n => ⟨n⟩
  | none => ""

/-- Index of the last `.` in a character list (`str.rfind('.')`). -/
def rfindDot (cs : List Char) : Option Nat :=
  (List.range cs.length).foldl
    (fun acc i => if cs.get? i = some '.' then some i else acc) none

/-- `pathlib.PurePath.suffix`: the final component's extension, empty unless
the last dot is neither the first nor the last character of the name. -/
def pySuffix (path : String) : String :=
  let cs := (pyName path).data
  match rfindDot cs with
  | some i => if 0 < i ∧ i < cs.length - 1 then ⟨cs.drop i⟩ else ""
  | none => ""

/-- The outcome of `process_file`: either an adapter ran (its boolean result
and the resulting on-disk content), or the extension was not in the table and
the unsupported-format notice was printed. -/
inductive RouteResult
  | handled (ret : Bool) (disk : AudioContent)
  | unsupported (ext : String)
deriving DecidableEq

/-- Whether a route outcome is the unsupported-format branch. -/
def RouteResult.isUnsupported : RouteResult → Bool
  | RouteResult.unsupported _ => true
  | _ => false

/-- `process_file`: lower-case the final component's extension, look it up in
the fixed processor table, and run the matching adapter on the file's
content; any other extension takes the unsupported branch. -/
def process_file (decode : Decoder) (c : AudioContent) (path : String) : RouteResult :=
  let ext := lowerStr (pySuffix path)
  if ext = ".flac" then RouteResult.handled (process_flac decode c).1 (process_flac decode c).2
  else if ext = ".mp3" then RouteResult.handled (process_mp3 decode c).1 (process_mp3 decode c).2
  else if ext = ".m4a" then RouteResult.handled (process_m4a decode c).1 (process_m4a decode c).2
  else if ext = ".ogg" then RouteResult.handled (process_ogg decode c).1 (process_ogg decode c).2
  else if ext = ".wav" then RouteResult.handled (process_wav decode c).1 (process_wav decode c).2
  else RouteResult.unsupported ext

/-- One filesystem entry: a file with audio content, or a directory. -/
inductive FSNode
  | file (content : AudioContent)
  | dir
deriving DecidableEq

/-- A flat filesystem: paths mapped to nodes. -/
abbrev FileSystem := List (String × FSNode)

/-- `Path.is_file()`. -/
def isFile (fs : FileSystem) (p : String) : Bool :=
  fs.any (fun e => e.1 == p && match e.2 with
    | FSNode.file _ => true
    | FSNode.dir => false)

/-- `Path.is_dir()`. -/
def isDir (fs : FileSystem) (p : String) : Bool :=
  fs.any (fun e => e.1 == p && e.2 == FSNode.dir)

/-- Opening a path with a mutagen parser: a file node yields its content; a
missing path or a directory makes the parser raise, modelled as `raw`. -/
def getContent (fs : FileSystem) (p : String) : AudioContent :=
  match fs.find? (fun e => e.1 = p) with
  | some (_, FSNode.file c) => c
  | _ => AudioContent.raw

/-- Structural prefix test on character lists. -/
def listStarts : List Char → List Char → Bool
  | [], _ => true
  | _ :: _, [] => false
  | a :: as, b :: bs => a == b && listStarts as bs

/-- `os.walk(path)` flattened: every file whose path lies strictly under the
directory, joined with its root as the script's `Path(root) / file`. -/
def walkFiles (fs : FileSystem) (p : String) : List String :=
  fs.filterMap (fun e => match e.2 with
    | FSNode.file _ => if listStarts (p.data ++ ['/']) e.1.data then some e.1 else none
    | FSNode.dir => none)

/-- Python `str.strip('"')` on a character list: drop every leading and every
trailing double-quote character. -/
def stripQuoteChars (l : List Char) : List Char :=
  ((l.dropWhile (fun ch => ch = '"')).reverse.dropWhile (fun ch => ch = '"')).reverse

/-- `path.strip('"')` as the script applies it to each raw input path. -/
def stripQuotes (s : String) : String :=
  ⟨stripQuoteChars s.data⟩

/-- `set.add`: the deduplicating insert into `valid_files` (membership-checked;
iteration order of the model is insertion order, which the spec declares
non-semantic). -/
def insertPath (x : String) (l : List String) : List String :=
  if x ∈ l then l else l ++ [x]

/-- One iteration of the collection loop in `process_files`: strip quotes,
then either add a supported file, or walk a directory adding every supported
file under it. -/
def collectOne (fs : FileSystem) (acc : List String) (rawPath : String) : List String :=
  let path := stripQuotes rawPath
  if isFile fs path ∧ lowerStr (pySuffix path) ∈ SUPPORTED_FORMATS then
    insertPath path acc
  else if isDir fs path then
    (walkFiles fs path).foldl
      (fun a f => if lowerStr (pySuffix f) ∈ SUPPORTED_FORMATS then insertPath f a else a) acc
  else acc

/-- The full collection phase of `process_files`: all supported files from all
input paths, deduplicated, gathered before any processing starts. -/
def collectValid (fs : FileSystem) (paths : List String) : List String :=
  paths.foldl (collectOne fs) []

/-- The status lines `process_files` prints, one determinate status per
file. -/
inductive Msg
  | noSupported
  | found (n : Nat)
  | success (p : String)
  | noCover (p : String)
  | unsupportedFmt (ext : String)
  | summary (ok : Nat) (failed : Nat)
deriving DecidableEq

/-- The processing-loop body of `process_files` for one collected path:
route it, then report success or no-cover from the boolean result (the
unsupported notice, were it ever reached, is printed inside `process_file`
before that report). -/
def processOne (decode : Decoder) (fs : FileSystem) (p : String) : Bool × List Msg :=
  match process_file decode (getContent fs p) p with
  | RouteResult.handled true _ => (true, [Msg.success p])
  | RouteResult.handled false _ => (false, [Msg.noCover p])
  | RouteResult.unsupported e => (false, [Msg.unsupportedFmt e, Msg.noCover p])

/-- `process_files`: collect first, then — unless nothing was found — report
the count, process each collected file independently, and summarise. -/
def process_files (decode : Decoder) (fs : FileSystem) (paths : List String) : List Msg :=
  let valid := collectValid fs paths
  if valid.isEmpty then [Msg.noSupported]
  else
    let results := valid.map (processOne decode fs)
    let succ := (results.filter (fun r => r.1 = true)).length
    Msg.found valid.length :: (results.map (fun r => r.2)).flatten ++
      [Msg.summary succ (valid.length - succ)]

instance {ε α : Type} [DecidableEq ε] [DecidableEq α] : DecidableEq (Except ε α) := fun a b =>
  match a, b with
  | Except.ok x, Except.ok y =>
    if h : x = y then isTrue (by rw [h]) else isFalse (by intro hh; cases hh; exact h rfl)
  | Except.error x, Except.error y =>
    if h : x = y then isTrue (by rw [h]) else isFalse (by intro hh; cases hh; exact h rfl)
  | Except.ok _, Except.error _ => isFalse (by intro hh; cases hh)
  | Except.error _, Except.ok _ => isFalse (by intro hh; cases hh)

/-- The picture list of a FLAC container (empty for other constructors); used
to state what a processed FLAC file holds. -/
def flacPics : AudioContent → List Picture
  | AudioContent.flac pics => pics
  | _ => []

/-- A decoder that accepts any buffer (a 3x2 RGB image). -/
def decOk : Decoder := fun _ => Except.ok ⟨ImgMode.RGB, 3, 2, 5⟩

/-- A decoder that accepts any buffer as a 123x45 RGBA image. -/
def decRGBA : Decoder := fun _ => Except.ok ⟨ImgMode.RGBA, 123, 45, 7⟩

/-- A decoder that decodes only the buffer `[1]` and raises on anything else:
one valid picture payload, everything else corrupt. -/
def decSel : Decoder := fun b =>
  if b = [1] then Except.ok ⟨ImgMode.RGB, 1, 1, 0⟩
  else Except.error "cannot identify image file"

/-- The JPEG buffer `resize_image decSel [1]` produces. -/
def rOk : Bytes := jpegEncode ⟨ImgMode.RGB, 500, 500, 0⟩ 95

/-- First front-cover (type 3) picture of the two-front-cover FLAC example. -/
def c2picA : Picture := ⟨3, [], [], 9, 9, 0, 0, [1]⟩

/-- Second front-cover (type 3) picture of the two-front-cover FLAC example. -/
def c2picB : Picture := ⟨3, [], [], 9, 9, 0, 0, [2]⟩

/-- A back-cover (type 4) picture. -/
def c2picBack : Picture := ⟨4, [], [], 9, 9, 0, 0, [1]⟩

/-- First APIC frame (front cover) whose data `decSel` cannot decode. -/
def c3apicA : APIC := ⟨0, "image/png", 3, "front", [9]⟩

/-- Second APIC frame (back cover) whose data `decSel` decodes. -/
def c3apicB : APIC := ⟨0, "image/png", 4, "back", [1]⟩

/-- A front-cover FLAC picture whose data `decSel` cannot decode. -/
def c4picBad : Picture := ⟨3, [], [], 9, 9, 0, 0, [9]⟩

/-- A front-cover FLAC picture whose data `decSel` decodes. -/
def c4picGood : Picture := ⟨3, [], [], 9, 9, 0, 0, [1]⟩

/-- A directory holding one `.flac` (with a decodable front cover), one
`.txt` and one `.mp3` (with no APIC frames). -/
def fsDemo : FileSystem :=
  [("d", FSNode.dir),
   ("d/a.flac", FSNode.file (AudioContent.flac [c2picA])),
   ("d/b.txt", FSNode.file AudioContent.raw),
   ("d/c.mp3", FSNode.file (AudioContent.mp3 []))]

/-- An original OGG picture block (type 0, no metadata, decodable data). -/
def oggPicDemo : Picture := ⟨0, [], [], 0, 0, 0, 0, [1]⟩

/-- The `metadata_block_picture` field value storing `oggPicDemo`. -/
def oggValDemo : Bytes := b64encode (pictureWrite oggPicDemo)

/-! ## Image-transform lemmas -/

theorem except_ok_bind {α β : Type} (a : α) (f : α → Except String β) :
    ((Except.ok a : Except String α) >>= f) = f a := rfl

theorem modeCode_lt (m : ImgMode) : modeCode m < 256 := by
  cases m <;> simp [modeCode]

theorem jpegEncode_lt (img : PILImage) (q : Nat) : ∀ x ∈ jpegEncode img q, x < 256 := by
  intro x hx
  simp only [jpegEncode, List.mem_cons, List.not_mem_nil, or_false] at hx
  rcases hx with h | h | h | h | h | h | h | h | h <;> subst h <;>
    first
    | exact modeCode_lt _
    | omega

theorem jpegEncode_length (img : PILImage) (q : Nat) : (jpegEncode img q).length = 9 := rfl

theorem resizePipeline_ok_shape (decode : Decoder) (data : Bytes) (b : Bytes)
    (h : resizePipeline decode data = Except.ok b) :
    ∃ img img', decode data = Except.ok img ∧ b = jpegEncode img' 95 ∧
      img'.width = 500 ∧ img'.height = 500 ∧ modeHasAlpha img'.mode = false ∧
      ((img.mode = ImgMode.RGBA ∨ img.mode = ImgMode.LA) → img'.mode = ImgMode.RGB) := by
  cases hd : decode data with
  | error e =>
    simp [resizePipeline, hd, Bind.bind, Except.bind] at h
  | ok img =>
    obtain ⟨m, w, ht, cont⟩ := img
    cases m with
    | RGB =>
      simp [resizePipeline, hd, except_ok_bind, saveJPEG, convertRGB, imgResize,
        modeHasAlpha] at h
      exact ⟨⟨ImgMode.RGB, w, ht, cont⟩, ⟨ImgMode.RGB, 500, 500, cont⟩, rfl, h.symm,
        rfl, rfl, rfl, by intro hc; simp at hc⟩
    | RGBA =>
      simp [resizePipeline, hd, except_ok_bind, saveJPEG, convertRGB, imgResize,
        modeHasAlpha] at h
      exact ⟨⟨ImgMode.RGBA, w, ht, cont⟩, ⟨ImgMode.RGB, 500, 500, cont⟩, rfl, h.symm,
        rfl, rfl, rfl, fun _ => rfl⟩
    | LA =>
      simp [resizePipeline, hd, except_ok_bind, saveJPEG, convertRGB, imgResize,
        modeHasAlpha] at h
      exact ⟨⟨ImgMode.LA, w, ht, cont⟩, ⟨ImgMode.RGB, 500, 500, cont⟩, rfl, h.symm,
        rfl, rfl, rfl, fun _ => rfl⟩
    | L =>
      simp [resizePipeline, hd, except_ok_bind, saveJPEG, convertRGB, imgResize,
        modeHasAlpha] at h
      exact ⟨⟨ImgMode.L, w, ht, cont⟩, ⟨ImgMode.L, 500, 500, cont⟩, rfl, h.symm,
        rfl, rfl, rfl, by intro hc; simp at hc⟩

theorem resize_image_some_shape (decode : Decoder) (data : Bytes) (r : Bytes)
    (h : resize_image decode data = some r) :
    ∃ img', r = jpegEncode img' 95 ∧ img'.width = 500 ∧ img'.height = 500 ∧
      modeHasAlpha img'.mode = false := by
  rw [resize_image] at h
  cases hp : resizePipeline decode data with
  | error e => rw [hp] at h; cases h
  | ok b =>
    rw [hp] at h
    obtain ⟨_, img', _, hb, hw, hh, hal, _⟩ := resizePipeline_ok_shape decode data b hp
    cases h
    exact ⟨img', hb, hw, hh, hal⟩

/-- C1: for every input byte buffer that the image collaborator decodes as a
valid image — of any mode, resolution and aspect ratio — `resize_image`
returns a JPEG buffer encoded at quality 95 whose dimensions are exactly
500x500 and whose mode carries no alpha channel; RGBA and luminance+alpha
inputs are flattened to RGB before encoding. -/
theorem resize_image_output_500x500_jpeg95 (decode : Decoder) (data : Bytes) (img : PILImage)
    (h : decode data = Except.ok img) :
    ∃ img', resize_image decode data = some (jpegEncode img' 95) ∧
      img'.width = 500 ∧ img'.height = 500 ∧ modeHasAlpha img'.mode = false ∧
      ((img.mode = ImgMode.RGBA ∨ img.mode = ImgMode.LA) → img'.mode = ImgMode.RGB) := by
  obtain ⟨m, w, ht, cont⟩ := img
  cases m with
  | RGB =>
    refine ⟨⟨ImgMode.RGB, 500, 500, cont⟩, ?_, rfl, rfl, rfl, ?_⟩
    · simp [resize_image, resizePipeline, h, except_ok_bind, saveJPEG, convertRGB,
        imgResize, modeHasAlpha]
    · intro hc; simp at hc
  | RGBA =>
    refine ⟨⟨ImgMode.RGB, 500, 500, cont⟩, ?_, rfl, rfl, rfl, fun _ => rfl⟩
    simp [resize_image, resizePipeline, h, except_ok_bind, saveJPEG, convertRGB,
      imgResize, modeHasAlpha]
  | LA =>
    refine ⟨⟨ImgMode.RGB, 500, 500, cont⟩, ?_, rfl, rfl, rfl, fun _ => rfl⟩
    simp [resize_image, resizePipeline, h, except_ok_bind, saveJPEG, convertRGB,
      imgResize, modeHasAlpha]
  | L =>
    refine ⟨⟨ImgMode.L, 500, 500, cont⟩, ?_, rfl, rfl, rfl, ?_⟩
    · simp [resize_image, resizePipeline, h, except_ok_bind, saveJPEG, convertRGB,
        imgResize, modeHasAlpha]
    · intro hc; simp at hc

/-- Closed instance of C1's theorem: an RGBA input is transformed, flattened
to RGB, and comes out as a 500x500 quality-95 JPEG. -/
theorem resize_image_output_witness :
    ∃ img', resize_image decRGBA [] = some (jpegEncode img' 95) ∧
      img'.width = 500 ∧ img'.height = 500 ∧ modeHasAlpha img'.mode = false ∧
      (((⟨ImgMode.RGBA, 123, 45, 7⟩ : PILImage).mode = ImgMode.RGBA ∨
        (⟨ImgMode.RGBA, 123, 45, 7⟩ : PILImage).mode = ImgMode.LA) → img'.mode = ImgMode.RGB) :=
  resize_image_output_500x500_jpeg95 decRGBA [] ⟨ImgMode.RGBA, 123, 45, 7⟩ rfl

/-- C5: `resize_image` never propagates an exception: every raised
decode/resize/encode error inside the pipeline is caught and turned into the
explicit failure signal `none`, and every success yields the pipeline's JPEG
buffer, which is never empty. -/
theorem resize_image_never_raises (decode : Decoder) (data : Bytes) :
    (∃ e, resizePipeline decode data = Except.error e ∧ resize_image decode data = none) ∨
    (∃ b, resizePipeline decode data = Except.ok b ∧ resize_image decode data = some b ∧
      b.length ≠ 0) := by
  cases hp : resizePipeline decode data with
  | error e => exact Or.inl ⟨e, rfl, by rw [resize_image, hp]⟩
  | ok b =>
    refine Or.inr ⟨b, rfl, by rw [resize_image, hp], ?_⟩
    obtain ⟨_, img', _, hb, _⟩ := resizePipeline_ok_shape decode data b hp
    rw [hb, jpegEncode_length]
    omega

/-- C10: a WAV file with no ID3 tag chunk gets an empty in-memory tag whose
zero APIC frames leave `modified` false, so nothing is saved: the result is
not-modified and the on-disk file — in particular the absent tag chunk — is
unchanged, exactly as for a file that already carries an empty tag. -/
theorem process_wav_no_tag_chunk_untouched (decode : Decoder) :
    process_wav decode (AudioContent.wav none) = (false, AudioContent.wav none) ∧
    (process_wav decode (AudioContent.wav none)).1 =
      (process_wav decode (AudioContent.wav (some []))).1 := by
  constructor <;> rfl

/-! ## FLAC adapter lemmas (C2, part of C4) -/

theorem list_any_map {a b : Type} (l : List a) (f : a → b) (p : b → Bool) :
    (l.map f).any p = l.any (fun x => p (f x)) := by
  induction l with
  | nil => rfl
  | cons x xs ih => simp [ih]

theorem list_map_map_fst {a b c : Type} (l : List a) (f : a → b × c) :
    (l.map f).map (fun s => s.1) = l.map (fun x => (f x).1) := by
  induction l with
  | nil => rfl
  | cons x xs ih => simp [ih]

theorem process_flac_eq (decode : Decoder) (pics : List Picture) :
    process_flac decode (AudioContent.flac pics) =
      if pics.any (fun p => (updateFlacPic decode p).2) then
        (true, AudioContent.flac (pics.map (fun p => (updateFlacPic decode p).1)))
      else (false, AudioContent.flac pics) := by
  simp only [process_flac, list_any_map, list_map_map_fst]

theorem updateFlacPic_snd (decode : Decoder) (p : Picture) :
    (updateFlacPic decode p).2 = true ↔
      p.type = 3 ∧ resize_image decode p.data ≠ none := by
  rw [updateFlacPic]
  by_cases h3 : p.type = 3
  · cases hr : resize_image decode p.data <;> simp [h3, hr]
  · simp [h3]

theorem updateFlacPic_fst_of_not_front (decode : Decoder) (p : Picture) (h : p.type ≠ 3) :
    (updateFlacPic decode p).1 = p := by
  simp [updateFlacPic, h]

theorem updateFlacPic_fst_of_fail (decode : Decoder) (p : Picture)
    (h : resize_image decode p.data = none) :
    (updateFlacPic decode p).1 = p := by
  rw [updateFlacPic]
  by_cases h3 : p.type = 3 <;> simp [h3, h]

/-- C2 counterexample: a FLAC file with two front-cover (type 3) pictures,
both decodable.  The claim says only the first matched block is mutated and
every other block is kept byte-for-byte; the code mutates the second type-3
block as well (its loop has no `break`), so the saved file differs from the
claim's prediction at index 1. -/
theorem flac_second_front_cover_also_mutated :
    c2picB.type = 3 ∧
    (process_flac decOk (AudioContent.flac [c2picA, c2picB])).1 = true ∧
    (flacPics (process_flac decOk (AudioContent.flac [c2picA, c2picB])).2)[1]? ≠
      some c2picB := by
  decide

/-- C2 (amended): `process_flac` mutates in place every picture block of type
front-cover (3) whose data transforms successfully — not only the first — and
keeps every block that is not a front cover, or whose transform fails,
byte-for-byte unchanged after processing and save. -/
theorem process_flac_mutates_every_front_cover (decode : Decoder) (pics : List Picture)
    (i : Nat) (p : Picture) (hp : pics[i]? = some p) :
    ((p.type ≠ 3 ∨ resize_image decode p.data = none) →
      (flacPics (process_flac decode (AudioContent.flac pics)).2)[i]? = some p) ∧
    (∀ r, p.type = 3 → resize_image decode p.data = some r →
      (flacPics (process_flac decode (AudioContent.flac pics)).2)[i]? =
        some { p with data := r, width := 500, height := 500 }) := by
  rw [process_flac_eq]
  by_cases hmod : pics.any (fun q => (updateFlacPic decode q).2)
  · rw [if_pos hmod]
    have hget : (pics.map (fun q => (updateFlacPic decode q).1))[i]? =
        some ((updateFlacPic decode p).1) := by
      rw [List.getElem?_map, hp]
      rfl
    constructor
    · intro hkeep
      rw [flacPics, hget]
      rcases hkeep with h3 | hfail
      · rw [updateFlacPic_fst_of_not_front decode p h3]
      · rw [updateFlacPic_fst_of_fail decode p hfail]
    · intro r h3 hr
      rw [flacPics, hget, updateFlacPic, if_pos h3, hr]
  · rw [if_neg hmod]
    constructor
    · intro _
      rw [flacPics, hp]
    · intro r h3 hr
      exfalso
      apply hmod
      rw [List.any_eq_true]
      refine ⟨p, List.getElem?_mem hp, ?_⟩
      rw [updateFlacPic_snd]
      exact ⟨h3, by rw [hr]; intro hc; cases hc⟩

/-- Closed instance of the amended C2 theorem: a back-cover (type 4) block is
kept unchanged through a save that replaced the front cover. -/
theorem process_flac_mutates_witness :
    (flacPics (process_flac decOk (AudioContent.flac [c2picBack, c2picA])).2)[0]? =
      some c2picBack :=
  (process_flac_mutates_every_front_cover decOk [c2picBack, c2picA] 0 c2picBack rfl).1
    (Or.inl (by decide))

/-! ## MP3/WAV APIC loop lemmas (C3, part of C4) -/

theorem apicLoop_none_iff (decode : Decoder) :
    ∀ l : List APIC, apicLoop decode l = none ↔ ∀ a ∈ l, resize_image decode a.data = none
  | [] => by simp [apicLoop]
  | apic :: rest => by
    rw [apicLoop]
    cases hr : resize_image decode apic.data with
    | some r => simp [hr]
    | none =>
      simp only [List.mem_cons]
      rw [apicLoop_none_iff decode rest]
      constructor
      · intro h a ha
        rcases ha with rfl | ha
        · exact hr
        · exact h a ha
      · intro h a ha
        exact h a (Or.inr ha)

theorem apicLoop_some_first (decode : Decoder) :
    ∀ (l : List APIC) (r : Bytes), apicLoop decode l = some r →
      ∃ (i : Nat) (a : APIC), l[i]? = some a ∧ resize_image decode a.data = some r ∧
        ∀ (j : Nat) (b : APIC), j < i → l[j]? = some b → resize_image decode b.data = none
  | [], r => by simp [apicLoop]
  | apic :: rest, r => by
    rw [apicLoop]
    cases hr : resize_image decode apic.data with
    | some r' =>
      intro h
      cases h
      exact ⟨0, apic, by simp, hr, fun j b hj => absurd hj (Nat.not_lt_zero j)⟩
    | none =>
      intro h
      obtain ⟨i, a, ha, hres, hfirst⟩ := apicLoop_some_first decode rest r h
      refine ⟨i + 1, a, by rw [List.getElem?_cons_succ]; exact ha, hres, ?_⟩
      intro j b hj hb
      cases j with
      | zero =>
        rw [List.getElem?_cons_zero] at hb
        cases hb
        exact hr
      | succ jj =>
        rw [List.getElem?_cons_succ] at hb
        exact hfirst jj b (by omega) hb

/-- C3 counterexample: an MP3 tag with two APIC frames whose first frame's
bytes fail to transform.  The claim says the adapter only ever reads the raw
bytes of the first APIC frame encountered — under which this file could not
be modified — but the code falls through to the second frame, transforms it,
and saves a replaced tag. -/
theorem mp3_reads_beyond_first_apic :
    resize_image decSel c3apicA.data = none ∧
    (process_mp3 decSel (AudioContent.mp3 [c3apicA, c3apicB])).1 = true ∧
    (process_mp3 decSel (AudioContent.mp3 [c3apicA, c3apicB])).2 ≠
      AudioContent.mp3 [c3apicA, c3apicB] := by
  decide

/-- C3 (amended): the MP3/WAV adapters read APIC frames in order, trying each
frame's bytes until one transforms successfully (later frames are read only
when every earlier frame's transform failed); on the first success they remove
ALL APIC frames and insert exactly one new frame with encoding=3, MIME
image/jpeg, type=front-cover (3), description "Cover", containing the resized
image — so after a successful save exactly one attached-picture frame
remains.  If no frame transforms, nothing is modified. -/
theorem process_mp3_wav_replace_all_with_one (decode : Decoder) (apics : List APIC) :
    (∀ r, apicLoop decode apics = some r →
      (∃ (i : Nat) (a : APIC), apics[i]? = some a ∧ resize_image decode a.data = some r ∧
        ∀ (j : Nat) (b : APIC), j < i → apics[j]? = some b →
          resize_image decode b.data = none) ∧
      process_mp3 decode (AudioContent.mp3 apics) =
        (true, AudioContent.mp3 [⟨3, "image/jpeg", 3, "Cover", r⟩]) ∧
      process_wav decode (AudioContent.wav (some apics)) =
        (true, AudioContent.wav (some [⟨3, "image/jpeg", 3, "Cover", r⟩]))) ∧
    (apicLoop decode apics = none →
      process_mp3 decode (AudioContent.mp3 apics) = (false, AudioContent.mp3 apics) ∧
      process_wav decode (AudioContent.wav (some apics)) =
        (false, AudioContent.wav (some apics)) ∧
      ∀ a ∈ apics, resize_image decode a.data = none) := by
  constructor
  · intro r hloop
    refine ⟨apicLoop_some_first decode apics r hloop, ?_, ?_⟩
    · rw [process_mp3, hloop]
      rfl
    · rw [process_wav, hloop]
      rfl
  · intro hloop
    refine ⟨?_, ?_, (apicLoop_none_iff decode apics).1 hloop⟩
    · rw [process_mp3, hloop]
    · rw [process_wav, hloop]

/-- Closed instance of the amended C3 theorem: with the first frame corrupt
and the second decodable, the saved tag holds exactly the one new cover
frame built from the second frame's transform. -/
theorem process_mp3_wav_replace_witness :
    process_mp3 decSel (AudioContent.mp3 [c3apicA, c3apicB]) =
      (true, AudioContent.mp3 [⟨3, "image/jpeg", 3, "Cover", rOk⟩]) :=
  ((process_mp3_wav_replace_all_with_one decSel [c3apicA, c3apicB]).1 rOk rfl).2.1

/-! ## No-partial-save lemmas (C4) -/

theorem process_flac_not_modified (decode : Decoder) (pics : List Picture)
    (h : ∀ p ∈ pics, p.type = 3 → resize_image decode p.data = none) :
    process_flac decode (AudioContent.flac pics) = (false, AudioContent.flac pics) := by
  rw [process_flac_eq, if_neg]
  intro hany
  rw [List.any_eq_true] at hany
  obtain ⟨p, hmem, hsnd⟩ := hany
  rw [updateFlacPic_snd] at hsnd
  exact hsnd.2 (h p hmem hsnd.1)

theorem process_mp3_not_modified (decode : Decoder) (apics : List APIC)
    (h : ∀ a ∈ apics, resize_image decode a.data = none) :
    process_mp3 decode (AudioContent.mp3 apics) = (false, AudioContent.mp3 apics) := by
  rw [process_mp3, (apicLoop_none_iff decode apics).2 h]

theorem process_wav_not_modified (decode : Decoder) (tags : Option (List APIC))
    (h : ∀ a ∈ tags.getD [], resize_image decode a.data = none) :
    process_wav decode (AudioContent.wav tags) = (false, AudioContent.wav tags) := by
  cases tags with
  | none => rfl
  | some l =>
    rw [process_wav, (apicLoop_none_iff decode l).2 h]

theorem process_m4a_not_modified (decode : Decoder) (covr : Option (List (Bytes × Nat)))
    (h : ∀ c0 rest, covr = some (c0 :: rest) → resize_image decode c0.1 = none) :
    process_m4a decode (AudioContent.m4a covr) = (false, AudioContent.m4a covr) := by
  cases covr with
  | none => rfl
  | some l =>
    cases l with
    | nil => rfl
    | cons c0 rest =>
      rw [process_m4a, h c0 rest rfl]

theorem process_ogg_not_modified (decode : Decoder) (mbp : Option (List Bytes))
    (h : ∀ v rest bs pic, mbp = some (v :: rest) → b64decode v = Except.ok bs →
      pictureParse bs = Except.ok pic → resize_image decode pic.data = none) :
    process_ogg decode (AudioContent.ogg mbp) = (false, AudioContent.ogg mbp) := by
  cases mbp with
  | none => rfl
  | some l =>
    cases l with
    | nil => rfl
    | cons v rest =>
      cases hdec : b64decode v with
      | error e => simp [process_ogg, hdec]
      | ok bs =>
        cases hpar : pictureParse bs with
        | error e => simp [process_ogg, hdec, hpar]
        | ok pic => simp [process_ogg, hdec, hpar, h v rest bs pic rfl hdec hpar]

theorem process_flac_false_id (decode : Decoder) (c : AudioContent)
    (h : (process_flac decode c).1 = false) : (process_flac decode c).2 = c := by
  cases c with
  | flac pics =>
    rw [process_flac_eq] at h ⊢
    by_cases hmod : pics.any (fun q => (updateFlacPic decode q).2)
    · rw [if_pos hmod] at h
      cases h
    · rw [if_neg hmod]
  | mp3 _ => rfl
  | m4a _ => rfl
  | ogg _ => rfl
  | wav _ => rfl
  | raw => rfl

theorem process_mp3_false_id (decode : Decoder) (c : AudioContent)
    (h : (process_mp3 decode c).1 = false) : (process_mp3 decode c).2 = c := by
  cases c with
  | mp3 apics =>
    cases hl : apicLoop decode apics with
    | some r => simp [process_mp3, hl] at h
    | none => simp [process_mp3, hl]
  | flac _ => rfl
  | m4a _ => rfl
  | ogg _ => rfl
  | wav _ => rfl
  | raw => rfl

theorem process_wav_false_id (decode : Decoder) (c : AudioContent)
    (h : (process_wav decode c).1 = false) : (process_wav decode c).2 = c := by
  cases c with
  | wav tags =>
    cases tags with
    | none => rfl
    | some l =>
      cases hl : apicLoop decode l with
      | some r => simp [process_wav, hl] at h
      | none => simp [process_wav, hl]
  | flac _ => rfl
  | mp3 _ => rfl
  | m4a _ => rfl
  | ogg _ => rfl
  | raw => rfl

theorem process_m4a_false_id (decode : Decoder) (c : AudioContent)
    (h : (process_m4a decode c).1 = false) : (process_m4a decode c).2 = c := by
  cases c with
  | m4a covr =>
    match covr with
    | none => rfl
    | some [] => rfl
    | some (c0 :: rest) =>
      cases hr : resize_image decode c0.1 with
      | some r => simp [process_m4a, hr] at h
      | none => simp [process_m4a, hr]
  | flac _ => rfl
  | mp3 _ => rfl
  | ogg _ => rfl
  | wav _ => rfl
  | raw => rfl

theorem process_ogg_false_id (decode : Decoder) (c : AudioContent)
    (h : (process_ogg decode c).1 = false) : (process_ogg decode c).2 = c := by
  cases c with
  | ogg mbp =>
    match mbp with
    | none => rfl
    | some [] => rfl
    | some (v :: rest) =>
      cases hdec : b64decode v with
      | error e => simp [process_ogg, hdec]
      | ok bs =>
        cases hpar : pictureParse bs with
        | error e => simp [process_ogg, hdec, hpar]
        | ok pic =>
          cases hr : resize_image decode pic.data with
          | some r => simp [process_ogg, hdec, hpar, hr] at h
          | none => simp [process_ogg, hdec, hpar, hr]
  | flac _ => rfl
  | mp3 _ => rfl
  | m4a _ => rfl
  | wav _ => rfl
  | raw => rfl

theorem process_flac_true_shape (decode : Decoder) (pics : List Picture)
    (h : (process_flac decode (AudioContent.flac pics)).1 = true) :
    ∃ pics2, (process_flac decode (AudioContent.flac pics)).2 = AudioContent.flac pics2 ∧
      pics2.length = pics.length ∧
      ∀ (i : Nat) (p : Picture), pics[i]? = some p →
        pics2[i]? = some p ∨
        ∃ r, p.type = 3 ∧ resize_image decode p.data = some r ∧
          pics2[i]? = some { p with data := r, width := 500, height := 500 } := by
  rw [process_flac_eq] at h ⊢
  by_cases hmod : pics.any (fun q => (updateFlacPic decode q).2)
  · rw [if_pos hmod]
    refine ⟨pics.map (fun q => (updateFlacPic decode q).1), rfl, List.length_map _ _, ?_⟩
    intro i p hp
    have hget : (pics.map (fun q => (updateFlacPic decode q).1))[i]? =
        some ((updateFlacPic decode p).1) := by
      rw [List.getElem?_map, hp]
      rfl
    by_cases h3 : p.type = 3
    · cases hr : resize_image decode p.data with
      | some r =>
        right
        exact ⟨r, h3, rfl, by rw [hget, updateFlacPic, if_pos h3, hr]⟩
      | none =>
        left
        rw [hget, updateFlacPic_fst_of_fail decode p hr]
    · left
      rw [hget, updateFlacPic_fst_of_not_front decode p h3]
  · rw [if_neg hmod] at h
    cases h

theorem process_mp3_true_shape (decode : Decoder) (apics : List APIC)
    (h : (process_mp3 decode (AudioContent.mp3 apics)).1 = true) :
    ∃ (r : Bytes) (a : APIC), a ∈ apics ∧ resize_image decode a.data = some r ∧
      (process_mp3 decode (AudioContent.mp3 apics)).2 =
        AudioContent.mp3 [⟨3, "image/jpeg", 3, "Cover", r⟩] := by
  cases hl : apicLoop decode apics with
  | none => simp [process_mp3, hl] at h
  | some r =>
    obtain ⟨i, a, ha, hres, _⟩ := apicLoop_some_first decode apics r hl
    exact ⟨r, a, List.getElem?_mem ha, hres, by simp [process_mp3, hl, newCoverAPIC]⟩

theorem process_wav_true_shape (decode : Decoder) (tags : Option (List APIC))
    (h : (process_wav decode (AudioContent.wav tags)).1 = true) :
    ∃ (r : Bytes) (a : APIC), a ∈ tags.getD [] ∧ resize_image decode a.data = some r ∧
      (process_wav decode (AudioContent.wav tags)).2 =
        AudioContent.wav (some [⟨3, "image/jpeg", 3, "Cover", r⟩]) := by
  cases tags with
  | none => cases h
  | some l =>
    cases hl : apicLoop decode l with
    | none => simp [process_wav, hl] at h
    | some r =>
      obtain ⟨i, a, ha, hres, _⟩ := apicLoop_some_first decode l r hl
      exact ⟨r, a, List.getElem?_mem ha, hres, by simp [process_wav, hl, newCoverAPIC]⟩

theorem process_m4a_true_shape (decode : Decoder) (covr : Option (List (Bytes × Nat)))
    (h : (process_m4a decode (AudioContent.m4a covr)).1 = true) :
    ∃ c0 rest r, covr = some (c0 :: rest) ∧ resize_image decode c0.1 = some r ∧
      (process_m4a decode (AudioContent.m4a covr)).2 =
        AudioContent.m4a (some [(r, FORMAT_JPEG)]) := by
  match covr with
  | none => cases h
  | some [] => cases h
  | some (c0 :: rest) =>
    cases hr : resize_image decode c0.1 with
    | none => simp [process_m4a, hr] at h
    | some r => exact ⟨c0, rest, r, rfl, hr, by simp [process_m4a, hr]⟩

theorem process_ogg_true_shape (decode : Decoder) (mbp : Option (List Bytes))
    (h : (process_ogg decode (AudioContent.ogg mbp)).1 = true) :
    ∃ v rest bs pic r, mbp = some (v :: rest) ∧ b64decode v = Except.ok bs ∧
      pictureParse bs = Except.ok pic ∧ resize_image decode pic.data = some r ∧
      (process_ogg decode (AudioContent.ogg mbp)).2 =
        AudioContent.ogg (some [b64encode (pictureWrite (mkNewOggPic r))]) := by
  match mbp with
  | none => cases h
  | some [] => cases h
  | some (v :: rest) =>
    cases hdec : b64decode v with
    | error e => simp [process_ogg, hdec] at h
    | ok bs =>
      cases hpar : pictureParse bs with
      | error e => simp [process_ogg, hdec, hpar] at h
      | ok pic =>
        cases hr : resize_image decode pic.data with
        | none => simp [process_ogg, hdec, hpar, hr] at h
        | some r =>
          exact ⟨v, rest, bs, pic, r, rfl, hdec, hpar, hr,
            by simp [process_ogg, hdec, hpar, hr]⟩

/-- C4 counterexample: a FLAC file whose candidate picture — the first
front-cover (type 3) block, which the selection rule designates — fails to
transform.  The claim says the adapter then never calls save and leaves the
file untouched; the code goes on to the second type-3 block, transforms it,
marks the file modified and saves a changed picture list. -/
theorem flac_saves_despite_candidate_failure :
    c4picBad.type = 3 ∧
    resize_image decSel c4picBad.data = none ∧
    (process_flac decSel (AudioContent.flac [c4picBad, c4picGood])).1 = true ∧
    (process_flac decSel (AudioContent.flac [c4picBad, c4picGood])).2 ≠
      AudioContent.flac [c4picBad, c4picGood] := by
  decide

/-- C4 (amended): for every adapter, if the Image Transform fails on every
candidate picture or no candidate picture is found, the adapter does not mark
Modified and never calls save, leaving the original file untouched; whenever
an adapter reports not-modified the file on disk is unchanged; and a save
happens only with the picture fully replaced (new bytes together with the new
declared dimensions and MIME where the format tracks them) — never in a
partially-updated state. -/
theorem adapters_no_partial_save (decode : Decoder) :
    (∀ pics, (∀ p ∈ pics, p.type = 3 → resize_image decode p.data = none) →
      process_flac decode (AudioContent.flac pics) = (false, AudioContent.flac pics)) ∧
    (∀ apics, (∀ a ∈ apics, resize_image decode a.data = none) →
      process_mp3 decode (AudioContent.mp3 apics) = (false, AudioContent.mp3 apics)) ∧
    (∀ covr, (∀ c0 rest, covr = some (c0 :: rest) → resize_image decode c0.1 = none) →
      process_m4a decode (AudioContent.m4a covr) = (false, AudioContent.m4a covr)) ∧
    (∀ mbp, (∀ v rest bs pic, mbp = some (v :: rest) → b64decode v = Except.ok bs →
        pictureParse bs = Except.ok pic → resize_image decode pic.data = none) →
      process_ogg decode (AudioContent.ogg mbp) = (false, AudioContent.ogg mbp)) ∧
    (∀ tags, (∀ a ∈ tags.getD [], resize_image decode a.data = none) →
      process_wav decode (AudioContent.wav tags) = (false, AudioContent.wav tags)) ∧
    (∀ c, (process_flac decode c).1 = false → (process_flac decode c).2 = c) ∧
    (∀ c, (process_mp3 decode c).1 = false → (process_mp3 decode c).2 = c) ∧
    (∀ c, (process_m4a decode c).1 = false → (process_m4a decode c).2 = c) ∧
    (∀ c, (process_ogg decode c).1 = false → (process_ogg decode c).2 = c) ∧
    (∀ c, (process_wav decode c).1 = false → (process_wav decode c).2 = c) ∧
    (∀ pics, (process_flac decode (AudioContent.flac pics)).1 = true →
      ∃ pics2, (process_flac decode (AudioContent.flac pics)).2 = AudioContent.flac pics2 ∧
        pics2.length = pics.length ∧
        ∀ (i : Nat) (p : Picture), pics[i]? = some p →
          pics2[i]? = some p ∨
          ∃ r, p.type = 3 ∧ resize_image decode p.data = some r ∧
            pics2[i]? = some { p with data := r, width := 500, height := 500 }) ∧
    (∀ apics, (process_mp3 decode (AudioContent.mp3 apics)).1 = true →
      ∃ (r : Bytes) (a : APIC), a ∈ apics ∧ resize_image decode a.data = some r ∧
        (process_mp3 decode (AudioContent.mp3 apics)).2 =
          AudioContent.mp3 [⟨3, "image/jpeg", 3, "Cover", r⟩]) ∧
    (∀ covr, (process_m4a decode (AudioContent.m4a covr)).1 = true →
      ∃ c0 rest r, covr = some (c0 :: rest) ∧ resize_image decode c0.1 = some r ∧
        (process_m4a decode (AudioContent.m4a covr)).2 =
          AudioContent.m4a (some [(r, FORMAT_JPEG)])) ∧
    (∀ mbp, (process_ogg decode (AudioContent.ogg mbp)).1 = true →
      ∃ v rest bs pic r, mbp = some (v :: rest) ∧ b64decode v = Except.ok bs ∧
        pictureParse bs = Except.ok pic ∧ resize_image decode pic.data = some r ∧
        (process_ogg decode (AudioContent.ogg mbp)).2 =
          AudioContent.ogg (some [b64encode (pictureWrite (mkNewOggPic r))])) ∧
    (∀ tags, (process_wav decode (AudioContent.wav tags)).1 = true →
      ∃ (r : Bytes) (a : APIC), a ∈ tags.getD [] ∧ resize_image decode a.data = some r ∧
        (process_wav decode (AudioContent.wav tags)).2 =
          AudioContent.wav (some [⟨3, "image/jpeg", 3, "Cover", r⟩])) :=
  ⟨process_flac_not_modified decode,
   process_mp3_not_modified decode,
   process_m4a_not_modified decode,
   process_ogg_not_modified decode,
   process_wav_not_modified decode,
   process_flac_false_id decode,
   process_mp3_false_id decode,
   process_m4a_false_id decode,
   process_ogg_false_id decode,
   process_wav_false_id decode,
   process_flac_true_shape decode,
   process_mp3_true_shape decode,
   process_m4a_true_shape decode,
   process_ogg_true_shape decode,
   process_wav_true_shape decode⟩

/-- Closed instance of the amended C4 theorem: a FLAC file whose only
front-cover picture has corrupt data is reported not-modified with its
on-disk content untouched. -/
theorem adapters_no_partial_save_witness :
    process_flac decSel (AudioContent.flac [c4picBad]) =
      (false, AudioContent.flac [c4picBad]) :=
  (adapters_no_partial_save decSel).1 [c4picBad] (by decide)

/-! ## Dispatcher lemmas (C6) -/

/-- C6: `process_file` maps the final path component's extension,
case-insensitively, through the fixed table `.flac/.mp3/.m4a/.ogg/.wav` to
exactly the matching adapter, deciding purely lexically (the choice between
the unsupported branch and an adapter never depends on the file's content);
every other extension yields the explicit unsupported outcome, which is a
distinct result constructor from every adapter outcome, so the caller can
report it and continue. -/
theorem process_file_routes_by_extension (decode : Decoder) (c : AudioContent)
    (path : String) :
    (lowerStr (pySuffix path) = ".flac" →
      process_file decode c path =
        RouteResult.handled (process_flac decode c).1 (process_flac decode c).2) ∧
    (lowerStr (pySuffix path) = ".mp3" →
      process_file decode c path =
        RouteResult.handled (process_mp3 decode c).1 (process_mp3 decode c).2) ∧
    (lowerStr (pySuffix path) = ".m4a" →
      process_file decode c path =
        RouteResult.handled (process_m4a decode c).1 (process_m4a decode c).2) ∧
    (lowerStr (pySuffix path) = ".ogg" →
      process_file decode c path =
        RouteResult.handled (process_ogg decode c).1 (process_ogg decode c).2) ∧
    (lowerStr (pySuffix path) = ".wav" →
      process_file decode c path =
        RouteResult.handled (process_wav decode c).1 (process_wav decode c).2) ∧
    (lowerStr (pySuffix path) ∉ SUPPORTED_FORMATS →
      process_file decode c path = RouteResult.unsupported (lowerStr (pySuffix path))) ∧
    (∀ (ret : Bool) (disk : AudioContent),
      RouteResult.unsupported (lowerStr (pySuffix path)) ≠ RouteResult.handled ret disk) ∧
    (∀ path2, lowerStr (pySuffix path2) = lowerStr (pySuffix path) →
      process_file decode c path2 = process_file decode c path) ∧
    (∀ c2, (process_file decode c2 path).isUnsupported =
      (process_file decode c path).isUnsupported) := by
  refine ⟨?_, ?_, ?_, ?_, ?_, ?_, ?_, ?_, ?_⟩
  · intro h
    simp [process_file, h]
  · intro h
    simp [process_file, h]
  · intro h
    simp [process_file, h]
  · intro h
    simp [process_file, h]
  · intro h
    simp [process_file, h]
  · intro h
    simp only [SUPPORTED_FORMATS, List.mem_cons, List.not_mem_nil, or_false] at h
    push_neg at h
    obtain ⟨h1, h2, h3, h4, h5⟩ := h
    simp [process_file, h1, h2, h3, h4, h5]
  · intro ret disk hc
    cases hc
  · intro path2 h
    simp only [process_file, h]
  · intro c2
    rw [process_file, process_file]
    by_cases h1 : lowerStr (pySuffix path) = ".flac"
    · simp [h1, RouteResult.isUnsupported]
    · by_cases h2 : lowerStr (pySuffix path) = ".mp3"
      · simp [h1, h2, RouteResult.isUnsupported]
      · by_cases h3 : lowerStr (pySuffix path) = ".m4a"
        · simp [h1, h2, h3, RouteResult.isUnsupported]
        · by_cases h4 : lowerStr (pySuffix path) = ".ogg"
          · simp [h1, h2, h3, h4, RouteResult.isUnsupported]
          · by_cases h5 : lowerStr (pySuffix path) = ".wav"
            · simp [h1, h2, h3, h4, h5, RouteResult.isUnsupported]
            · simp [h1, h2, h3, h4, h5, RouteResult.isUnsupported]

/-- Closed instance of C6's theorem: an upper-case `.FLAC` path routes to the
FLAC adapter, and a `.txt` path yields the unsupported outcome. -/
theorem process_file_routes_witness :
    process_file decSel AudioContent.raw "x.FLAC" =
      RouteResult.handled (process_flac decSel AudioContent.raw).1
        (process_flac decSel AudioContent.raw).2 ∧
    process_file decSel AudioContent.raw "d/b.txt" = RouteResult.unsupported ".txt" :=
  ⟨(process_file_routes_by_extension decSel AudioContent.raw "x.FLAC").1 (by decide),
   (process_file_routes_by_extension decSel AudioContent.raw "d/b.txt").2.2.2.2.2.1
     (by decide)⟩

/-! ## Quote-stripping lemmas (C9) -/

theorem stripQuoteChars_cons_quote (l : List Char) :
    stripQuoteChars ('"' :: l) = stripQuoteChars l := by
  simp [stripQuoteChars, List.dropWhile_cons]

theorem stripQuoteChars_append_quote :
    ∀ l : List Char, stripQuoteChars (l ++ ['"']) = stripQuoteChars l
  | [] => by decide
  | ch :: t => by
    by_cases hc : ch = '"'
    · subst hc
      rw [List.cons_append, stripQuoteChars_cons_quote, stripQuoteChars_cons_quote]
      exact stripQuoteChars_append_quote t
    · rw [stripQuoteChars, stripQuoteChars]
      rw [List.cons_append, List.dropWhile_cons, List.dropWhile_cons]
      simp only [hc, decide_False, Bool.false_eq_true, if_false, List.reverse_cons,
        List.reverse_append]
      simp [List.dropWhile_cons, List.dropWhile_append]

theorem stripQuotes_wrap (s : String) :
    stripQuotes ("\"" ++ s ++ "\"") = stripQuotes s := by
  obtain ⟨l⟩ := s
  show String.mk (stripQuoteChars (('"' :: l) ++ ['"'])) = String.mk (stripQuoteChars l)
  rw [List.cons_append, stripQuoteChars_cons_quote, stripQuoteChars_append_quote]

theorem collectOne_congr (fs : FileSystem) (acc : List String) (x y : String)
    (h : stripQuotes x = stripQuotes y) :
    collectOne fs acc x = collectOne fs acc y := by
  rw [collectOne, collectOne, h]

/-- C9: every leading and trailing double-quote character of each raw input
path is stripped before the path is classified as file or directory, so a
quoted path is collected and processed exactly like the unquoted path. -/
theorem quoted_paths_processed_identically (decode : Decoder) (fs : FileSystem)
    (p : String) (ps : List String) :
    stripQuotes ("\"" ++ p ++ "\"") = stripQuotes p ∧
    collectValid fs (("\"" ++ p ++ "\"") :: ps) = collectValid fs (p :: ps) ∧
    process_files decode fs (("\"" ++ p ++ "\"") :: ps) =
      process_files decode fs (p :: ps) := by
  have hs : stripQuotes ("\"" ++ p ++ "\"") = stripQuotes p := stripQuotes_wrap p
  have hc : collectValid fs (("\"" ++ p ++ "\"") :: ps) = collectValid fs (p :: ps) := by
    rw [collectValid, collectValid, List.foldl_cons, List.foldl_cons,
      collectOne_congr fs [] _ p hs]
  refine ⟨hs, hc, ?_⟩
  rw [process_files, process_files, hc]

/-! ## Batch collection lemmas (C7) -/

theorem mem_insertPath {x y : String} {l : List String} :
    y ∈ insertPath x l ↔ y = x ∨ y ∈ l := by
  rw [insertPath]
  by_cases hx : x ∈ l
  · rw [if_pos hx]
    constructor
    · exact Or.inr
    · rintro (rfl | h)
      · exact hx
      · exact h
  · rw [if_neg hx]
    simp [List.mem_append]
    tauto

theorem nodup_insertPath {x : String} {l : List String} (h : l.Nodup) :
    (insertPath x l).Nodup := by
  rw [insertPath]
  by_cases hx : x ∈ l
  · rw [if_pos hx]
    exact h
  · rw [if_neg hx]
    simp [List.nodup_append, h, hx]

theorem foldl_preserve {g : Type} (P : List String → Prop) (f : List String → g → List String)
    (hf : ∀ acc x, P acc → P (f acc x)) :
    ∀ (xs : List g) (acc : List String), P acc → P (xs.foldl f acc)
  | [], _, h => h
  | x :: xs, acc, h => foldl_preserve P f hf xs (f acc x) (hf acc x h)

theorem collectOne_preserves (fs : FileSystem) (acc : List String) (x : String)
    (h : acc.Nodup ∧ ∀ p ∈ acc, lowerStr (pySuffix p) ∈ SUPPORTED_FORMATS) :
    (collectOne fs acc x).Nodup ∧
      ∀ p ∈ collectOne fs acc x, lowerStr (pySuffix p) ∈ SUPPORTED_FORMATS := by
  simp only [collectOne]
  by_cases h1 : isFile fs (stripQuotes x) = true ∧
      lowerStr (pySuffix (stripQuotes x)) ∈ SUPPORTED_FORMATS
  · rw [if_pos h1]
    refine ⟨nodup_insertPath h.1, ?_⟩
    intro p hp
    rcases mem_insertPath.1 hp with rfl | hp
    · exact h1.2
    · exact h.2 p hp
  · rw [if_neg h1]
    by_cases h2 : isDir fs (stripQuotes x) = true
    · rw [if_pos h2]
      refine foldl_preserve
        (fun acc2 => acc2.Nodup ∧ ∀ p ∈ acc2, lowerStr (pySuffix p) ∈ SUPPORTED_FORMATS)
        _ ?_ (walkFiles fs (stripQuotes x)) acc h
      intro acc2 f hacc2
      by_cases h3 : lowerStr (pySuffix f) ∈ SUPPORTED_FORMATS
      · rw [if_pos h3]
        refine ⟨nodup_insertPath hacc2.1, ?_⟩
        intro p hp
        rcases mem_insertPath.1 hp with rfl | hp
        · exact h3
        · exact hacc2.2 p hp
      · rw [if_neg h3]
        exact hacc2
    · rw [if_neg h2]
      exact h

theorem collectValid_spec (fs : FileSystem) (paths : List String) :
    (collectValid fs paths).Nodup ∧
      ∀ p ∈ collectValid fs paths, lowerStr (pySuffix p) ∈ SUPPORTED_FORMATS := by
  rw [collectValid]
  refine foldl_preserve
    (fun acc => acc.Nodup ∧ ∀ p ∈ acc, lowerStr (pySuffix p) ∈ SUPPORTED_FORMATS)
    _ ?_ paths [] ⟨List.nodup_nil, by intro p hp; cases hp⟩
  intro acc x hacc
  exact collectOne_preserves fs acc x hacc

theorem process_file_handled (decode : Decoder) (c : AudioContent) (q : String)
    (h : lowerStr (pySuffix q) ∈ SUPPORTED_FORMATS) :
    ∃ b d, process_file decode c q = RouteResult.handled b d := by
  simp only [SUPPORTED_FORMATS, List.mem_cons, List.not_mem_nil, or_false] at h
  rcases h with h | h | h | h | h
  · exact ⟨(process_flac decode c).1, (process_flac decode c).2, by simp [process_file, h]⟩
  · exact ⟨(process_mp3 decode c).1, (process_mp3 decode c).2, by simp [process_file, h]⟩
  · exact ⟨(process_m4a decode c).1, (process_m4a decode c).2, by simp [process_file, h]⟩
  · exact ⟨(process_ogg decode c).1, (process_ogg decode c).2, by simp [process_file, h]⟩
  · exact ⟨(process_wav decode c).1, (process_wav decode c).2, by simp [process_file, h]⟩

theorem processOne_snd_shape (decode : Decoder) (fs : FileSystem) (q : String)
    (h : lowerStr (pySuffix q) ∈ SUPPORTED_FORMATS) :
    (processOne decode fs q).2 = [Msg.success q] ∨
      (processOne decode fs q).2 = [Msg.noCover q] := by
  obtain ⟨b, d, hpf⟩ := process_file_handled decode (getContent fs q) q h
  rw [processOne, hpf]
  cases b
  · right
    rfl
  · left
    rfl

/-- C7: batch processing first collects, into a deduplicated set, exactly the
entries whose (case-insensitively lowered) extension is in the supported set —
walking directories before any file is processed, so the reported found-count
is the size of that set — and only then processes each collected file, giving
each its own success/no-cover status; an unsupported notice is never emitted
during a batch (unsupported entries are filtered out before counting).  In
particular a directory with one `.flac`, one `.txt` and one `.mp3` reports 2
files found, no notice for the `.txt`, and one independent status per audio
file. -/
theorem process_files_collects_then_processes (decode : Decoder) (fs : FileSystem)
    (paths : List String) :
    (collectValid fs paths).Nodup ∧
    (∀ p ∈ collectValid fs paths, lowerStr (pySuffix p) ∈ SUPPORTED_FORMATS) ∧
    ((collectValid fs paths).isEmpty = false →
      ∃ rest, process_files decode fs paths =
        Msg.found (collectValid fs paths).length :: rest) ∧
    (∀ e, Msg.unsupportedFmt e ∉ process_files decode fs paths) ∧
    process_files decSel fsDemo ["d"] =
      [Msg.found 2, Msg.success "d/a.flac", Msg.noCover "d/c.mp3", Msg.summary 1 1] := by
  obtain ⟨hnd, hsup⟩ := collectValid_spec fs paths
  refine ⟨hnd, hsup, ?_, ?_, by decide⟩
  · intro hne
    simp only [process_files, hne, Bool.false_eq_true, if_false]
    exact ⟨_, rfl⟩
  · intro e hmem
    simp only [process_files] at hmem
    by_cases hemp : (collectValid fs paths).isEmpty
    · rw [if_pos hemp] at hmem
      simp at hmem
    · rw [if_neg hemp] at hmem
      rcases List.mem_cons.1 hmem with hfound | hmem2
      · cases hfound
      rcases List.mem_append.1 hmem2 with hflat | hsumm
      · obtain ⟨sub, hsub, hesub⟩ := List.mem_flatten.1 hflat
        obtain ⟨pr, hpr, hpr2⟩ := List.mem_map.1 hsub
        obtain ⟨q, hq, hq2⟩ := List.mem_map.1 hpr
        rcases processOne_snd_shape decode fs q (hsup q hq) with hsh | hsh
        · rw [← hpr2, ← hq2, hsh] at hesub
          simp at hesub
        · rw [← hpr2, ← hq2, hsh] at hesub
          simp at hesub
      · simp at hsumm

/-- Closed instance of C7's theorem: the demo directory reports a found-count
equal to the size of its pre-collected set. -/
theorem process_files_collects_witness :
    ∃ rest, process_files decSel fsDemo ["d"] =
      Msg.found (collectValid fsDemo ["d"]).length :: rest :=
  (process_files_collects_then_processes decSel fsDemo ["d"]).2.2.1 (by decide)

/-! ## Base64 and picture-block round trips (C8) -/

theorem b64sextet_b64char (s : Nat) (hs : s < 64) : b64sextet (b64char s) = some s := by
  have h : ∀ t : Fin 64, b64sextet (b64char t.val) = some t.val := by decide
  exact h ⟨s, hs⟩

theorem b64char_ne_61 (s : Nat) (hs : s < 64) : ¬b64char s = 61 := by
  have h : ∀ t : Fin 64, ¬b64char t.val = 61 := by decide
  exact h ⟨s, hs⟩

theorem b64decode_b64encode : ∀ l : Bytes, (∀ x ∈ l, x < 256) →
    b64decode (b64encode l) = Except.ok l
  | [], _ => rfl
  | [a], h => by
    have ha : a < 256 := h a (by simp)
    have h0 := b64sextet_b64char (a / 4) (by omega)
    have h1 := b64sextet_b64char (a % 4 * 16) (by omega)
    simp [b64encode, b64decode, h0, h1]
    omega
  | [a, b], h => by
    have ha : a < 256 := h a (by simp)
    have hb : b < 256 := h b (by simp)
    have h0 := b64sextet_b64char (a / 4) (by omega)
    have h1 := b64sextet_b64char (a % 4 * 16 + b / 16) (by omega)
    have h2 := b64sextet_b64char (b % 16 * 4) (by omega)
    have hne2 := b64char_ne_61 (b % 16 * 4) (by omega)
    simp [b64encode, b64decode, h0, h1, h2, hne2]
    omega
  | a :: b :: c :: rest, h => by
    have ha : a < 256 := h a (by simp)
    have hb : b < 256 := h b (by simp)
    have hc : c < 256 := h c (by simp)
    have hrest : ∀ x ∈ rest, x < 256 := by
      intro x hx
      exact h x (by simp [hx])
    have ih := b64decode_b64encode rest hrest
    have h0 := b64sextet_b64char (a / 4) (by omega)
    have h1 := b64sextet_b64char (a % 4 * 16 + b / 16) (by omega)
    have h2 := b64sextet_b64char (b % 16 * 4 + c / 64) (by omega)
    have h3 := b64sextet_b64char (c % 64) (by omega)
    have hne2 := b64char_ne_61 (b % 16 * 4 + c / 64) (by omega)
    have hne3 := b64char_ne_61 (c % 64) (by omega)
    simp [b64encode, b64decode, h0, h1, h2, h3, hne2, hne3, ih]
    omega

theorem readBE32_be32 (n : Nat) (rest : List Nat) (h : n < 4294967296) :
    readBE32 (be32 n ++ rest) = Except.ok (n, rest) := by
  simp [be32, readBE32]
  omega

theorem readBytes_exact (x rest : List Nat) : readBytes x.length (x ++ rest) = (x, rest) := by
  simp [readBytes, List.take_left, List.drop_left]

theorem readBytes_all (x : List Nat) : readBytes x.length x = (x, []) := by
  simp [readBytes]

theorem be32_lt (n : Nat) : ∀ x ∈ be32 n, x < 256 := by
  intro x hx
  simp only [be32, List.mem_cons, List.not_mem_nil, or_false] at hx
  rcases hx with h | h | h | h <;> subst h <;> omega

theorem pictureWrite_lt (p : Picture) (hm : ∀ x ∈ p.mime, x < 256)
    (hd : ∀ x ∈ p.desc, x < 256) (hdata : ∀ x ∈ p.data, x < 256) :
    ∀ x ∈ pictureWrite p, x < 256 := by
  intro x hx
  simp only [pictureWrite, List.mem_append] at hx
  rcases hx with ((((((((((hx | hx) | hx) | hx) | hx) | hx) | hx) | hx) | hx) | hx) | hx)
  · exact be32_lt _ x hx
  · exact be32_lt _ x hx
  · exact hm x hx
  · exact be32_lt _ x hx
  · exact hd x hx
  · exact be32_lt _ x hx
  · exact be32_lt _ x hx
  · exact be32_lt _ x hx
  · exact be32_lt _ x hx
  · exact be32_lt _ x hx
  · exact hdata x hx

theorem pictureParse_pictureWrite (p : Picture)
    (ht : p.type < 4294967296) (hm : p.mime.length < 4294967296)
    (hd : p.desc.length < 4294967296) (hw : p.width < 4294967296)
    (hh : p.height < 4294967296) (hdep : p.depth < 4294967296)
    (hc : p.colors < 4294967296) (hdata : p.data.length < 4294967296) :
    pictureParse (pictureWrite p) = Except.ok p := by
  rw [pictureWrite]
  rw [pictureParse]
  simp only [List.append_assoc]
  rw [readBE32_be32 p.type _ ht, except_ok_bind]
  rw [readBE32_be32 p.mime.length _ hm, except_ok_bind]
  rw [readBytes_exact]
  rw [readBE32_be32 p.desc.length _ hd, except_ok_bind]
  rw [readBytes_exact]
  rw [readBE32_be32 p.width _ hw, except_ok_bind]
  rw [readBE32_be32 p.height _ hh, except_ok_bind]
  rw [readBE32_be32 p.depth _ hdep, except_ok_bind]
  rw [readBE32_be32 p.colors _ hc, except_ok_bind]
  rw [readBE32_be32 p.data.length _ hdata, except_ok_bind]
  rw [readBytes_all]

/-- C8: if an OGG file has no `metadata_block_picture` comment field the
adapter reports no cover found (not modified) and the file is untouched; if
the field exists, its first value is base64-decoded into a picture block,
that block's data is transformed, and on success the field is overwritten
with the base64 encoding of a brand-new picture block whose type is
front-cover (3) and MIME `image/jpeg`, with empty description and zero
width/height/depth — the original block's metadata fields are not reused —
holding the resized data. -/
theorem process_ogg_overwrites_with_new_block (decode : Decoder) :
    process_ogg decode (AudioContent.ogg none) = (false, AudioContent.ogg none) ∧
    (∀ (v : Bytes) (rest : List Bytes) (bs : Bytes) (pic : Picture) (r : Bytes),
      b64decode v = Except.ok bs → pictureParse bs = Except.ok pic →
      resize_image decode pic.data = some r →
      ∃ out, process_ogg decode (AudioContent.ogg (some (v :: rest))) =
          (true, AudioContent.ogg (some [out])) ∧
        ∃ bs2 pic2, b64decode out = Except.ok bs2 ∧ pictureParse bs2 = Except.ok pic2 ∧
          pic2.type = 3 ∧ pic2.mime = mimeJpegBytes ∧ pic2.desc = [] ∧
          pic2.width = 0 ∧ pic2.height = 0 ∧ pic2.depth = 0 ∧ pic2.data = r) := by
  refine ⟨rfl, ?_⟩
  intro v rest bs pic r hdec hpar hres
  refine ⟨b64encode (pictureWrite (mkNewOggPic r)),
    by simp [process_ogg, hdec, hpar, hres], ?_⟩
  obtain ⟨img', hr, _, _, _⟩ := resize_image_some_shape decode pic.data r hres
  have hmime : ∀ x ∈ mimeJpegBytes, x < 256 := by decide
  have hlt : ∀ x ∈ pictureWrite (mkNewOggPic r), x < 256 := by
    apply pictureWrite_lt
    · exact hmime
    · intro x hx
      cases hx
    · intro x hx
      rw [mkNewOggPic] at hx
      rw [hr] at hx
      exact jpegEncode_lt img' 95 x hx
  have hdatalen : (mkNewOggPic r).data.length < 4294967296 := by
    show r.length < 4294967296
    rw [hr, jpegEncode_length]
    omega
  refine ⟨pictureWrite (mkNewOggPic r), mkNewOggPic r, b64decode_b64encode _ hlt,
    pictureParse_pictureWrite _ (by norm_num [mkNewOggPic]) (by norm_num [mkNewOggPic, mimeJpegBytes])
      (by norm_num [mkNewOggPic]) (by norm_num [mkNewOggPic]) (by norm_num [mkNewOggPic])
      (by norm_num [mkNewOggPic]) (by norm_num [mkNewOggPic]) hdatalen,
    rfl, rfl, rfl, rfl, rfl, rfl, rfl⟩

/-- Closed instance of C8's theorem: a stored block with arbitrary type and no
metadata is replaced by a brand-new front-cover JPEG block holding the
transformed data. -/
theorem process_ogg_overwrites_witness :
    ∃ out, process_ogg decSel (AudioContent.ogg (some [oggValDemo])) =
        (true, AudioContent.ogg (some [out])) ∧
      ∃ bs2 pic2, b64decode out = Except.ok bs2 ∧ pictureParse bs2 = Except.ok pic2 ∧
        pic2.type = 3 ∧ pic2.mime = mimeJpegBytes ∧ pic2.desc = [] ∧
        pic2.width = 0 ∧ pic2.height = 0 ∧ pic2.depth = 0 ∧ pic2.data = rOk :=
  (process_ogg_overwrites_with_new_block decSel).2 oggValDemo [] (pictureWrite oggPicDemo)
    oggPicDemo rOk (by decide) (by decide) (by decide)
